import Mathlib

/-!
Shallow embedding of the schedule-extractor state machine of
`getPids_html.py` (class `MyHTMLParser`).

The tokenizer (Python's `HTMLParser`) is external: it delivers a stream of
events — open tag with attributes, character data, close tag — in document
order.  We model an event stream as a `List Event` and the extractor as a
pure step function on `ParserState`, accumulating the printed lines as a
`List String` (one entry per output line of `printProgramme`).

Faithfulness notes:
* `self.hadPid` is a Python dict used only for key membership; it is
  modelled as a `List String` with `∈` membership and append on insertion.
* `re.sub('-', '/', value[0:10])` is character-wise replacement on the
  first ten characters: `cleanDate`.
* `data.strip(' \t\n\r')` strips exactly the four characters space, tab,
  newline, carriage return from both ends: `pyStrip`.
* `print '...'.format(...),` followed by another `print` produces a single
  line with a single separating space (Python 2 soft-space): `recordLine`.
-/

/-- A tokenizer event: open tag with its attribute list, character data,
or close tag. -/
inductive Event where
  | starttag (tag : String) (attrs : List (String × String))
  | data (s : String)
  | endtag (tag : String)
deriving DecidableEq

/-- The mutable fields of `MyHTMLParser`, as set up in `__init__`. -/
structure ParserState where
  date : String
  time : String
  pid : String
  title : String
  subtitle : String
  «repeat» : String
  step : Nat
  expected : String
  hadPid : List String
deriving DecidableEq

/-- The state built by `MyHTMLParser.__init__`: every string field empty,
`step = 0`, no seen pids. -/
def initState : ParserState :=
  { date := "", time := "", pid := "", title := "", subtitle := "",
    «repeat» := "", step := 0, expected := "", hadPid := [] }

/-- The four-way `print` branch of `printProgramme`: the quoted
title/subtitle/repeat portion of the output line. -/
def fmtTitle (title subtitle rpt : String) : String :=
  if subtitle ++ rpt = "" then "\"" ++ title ++ "\""
  else if rpt = "" then "\"" ++ title ++ " - " ++ subtitle ++ "\""
  else if subtitle = "" then "\"" ++ title ++ "\" " ++ rpt
  else "\"" ++ title ++ " - " ++ subtitle ++ "\" " ++ rpt

/-- The full output line of `printProgramme`:
`'{date}-{time} {pid}'` then a separating space then the title part. -/
def recordLine (s : ParserState) : String :=
  s.date ++ "-" ++ s.time ++ " " ++ s.pid ++ " " ++
    fmtTitle s.title s.subtitle s.«repeat»

/-- `printProgramme`: emit the current record iff `date == expected` and
`pid not in hadPid`; on emission also insert the pid into `hadPid`. -/
def printProgramme (s : ParserState) : ParserState × List String :=
  if s.date = s.expected ∧ s.pid ∉ s.hadPid then
    ({ s with hadPid := s.hadPid ++ [s.pid] }, [recordLine s])
  else (s, [])

/-- `re.sub('-', '/', value[0:10])`. -/
def cleanDate (v : String) : String :=
  String.mk ((v.toList.take 10).map (fun c => if c = '-' then '/' else c))

/-- One iteration of the attribute loop of `handle_starttag`:
the `if`/`elif` chain on `(attr, value)` at the current step. -/
def attrStep (s : ParserState) (av : String × String) : ParserState :=
  let attr := av.1
  let value := av.2
  if s.step = 1 ∧ attr = "content" then
    { s with date := cleanDate value, step := 2 }
  else if s.step = 2 ∧ value = "timezone--time" then
    { s with step := 3 }
  else if s.step = 4 ∧ attr = "data-pid" then
    { s with pid := value, step := 5 }
  else if s.step = 5 ∧ value = "programme__title " then
    { s with step := 6 }
  else if s.step = 6 ∧ value = "name" then
    { s with step := 7 }
  else if s.step = 8 ∧ value = "programme__subtitle centi" then
    { s with step := 9 }
  else if s.step = 9 ∧ value = "name" then
    { s with step := 10 }
  else if s.step = 11 ∧ value = "Repeat" then
    { s with «repeat» := "(R)", step := 12 }
  else s

/-- `handle_starttag`: on `h3`, flush the previous programme (unless at
step 0), clear the record fields and move to step 1; then, for every tag,
run the attribute loop. -/
def handle_starttag (s : ParserState) (tag : String)
    (attrs : List (String × String)) : ParserState × List String :=
  let (s1, out) :=
    if tag = "h3" then
      let (sp, o) := if s.step ≠ 0 then printProgramme s else (s, [])
      ({ sp with date := "", time := "", pid := "", title := "",
                 subtitle := "", «repeat» := "", step := 1 }, o)
    else (s, [])
  (attrs.foldl attrStep s1, out)

/-- The characters stripped by `data.strip(' \t\n\r')`. -/
def stripChar (c : Char) : Bool :=
  c = ' ' || c = '\t' || c = '\n' || c = '\r'

/-- `data.strip(' \t\n\r')`. -/
def pyStrip (d : String) : String :=
  String.mk (((d.toList.dropWhile stripChar).reverse.dropWhile
    stripChar).reverse)

/-- The subtitle-fragment transformation at step 10: strip, then append a
space when the stripped fragment ends in a comma (`data[-1:] == ','`). -/
def subtitleFrag (d : String) : String :=
  let t := (pyStrip d).toList
  String.mk (if t.getLast? = some ',' then t ++ [' '] else t)

/-- `handle_data`: step 3 takes the time text, step 7 the title text, and
step 10 accumulates subtitle fragments. -/
def handle_data (s : ParserState) (d : String) : ParserState :=
  if s.step = 3 then { s with time := d, step := 4 }
  else if s.step = 7 then { s with title := d, step := 8 }
  else if s.step = 10 then { s with subtitle := s.subtitle ++ subtitleFrag d }
  else s

/-- `handle_endtag`: `</h4>` terminates the subtitle (step 11); `</html>`
flushes the final programme and returns to step 0. -/
def handle_endtag (s : ParserState) (tag : String) : ParserState × List String :=
  if tag = "h4" then ({ s with step := 11 }, [])
  else if tag = "html" then
    let (sp, o) := printProgramme s
    ({ sp with step := 0 }, o)
  else (s, [])

/-- `newDate`: the begin-document operation — set the expected date and
return to step 0. -/
def newDate (s : ParserState) (expected : String) : ParserState :=
  { s with expected := expected, step := 0 }

/-- Dispatch one tokenizer event to its handler. -/
def procEvent (s : ParserState) : Event → ParserState × List String
  | .starttag tag attrs => handle_starttag s tag attrs
  | .data d => (handle_data s d, [])
  | .endtag tag => handle_endtag s tag

/-- Process an event stream in order, concatenating the output lines. -/
def feed (s : ParserState) : List Event → ParserState × List String
  | [] => (s, [])
  | e :: es =>
    let (s1, o1) := procEvent s e
    let (s2, o2) := feed s1 es
    (s2, o1 ++ o2)

/-!
## Canonical documents

The claims about whole documents ("N blocks, K matching dates", dedup
across two feeds, order preservation) quantify over documents drawn from
the markup template the extractor targets.  We model such a document as a
list of canonical programme blocks: each block renders to the event
subsequence that the grammar of the extractor consumes (block-boundary
`h3`, a `content` date attribute, the `timezone--time` class, the time
text, the `data-pid` attribute, the `programme__title ` and `name`
classes, the title text), and the document ends with the closing
`</html>` tag.
-/

/-- A canonical programme block: the raw date attribute value plus the
time, pid and title texts. -/
structure Block where
  date : String
  time : String
  pid : String
  title : String
deriving DecidableEq

/-- The event stream of one canonical block. -/
def blockEvents (b : Block) : List Event :=
  [ .starttag "h3" [],
    .starttag "meta" [("content", b.date)],
    .starttag "span" [("class", "timezone--time")],
    .data b.time,
    .starttag "div" [("data-pid", b.pid)],
    .starttag "span" [("class", "programme__title ")],
    .starttag "span" [("class", "name")],
    .data b.title ]

/-- The concatenated event streams of a list of blocks. -/
def blocksEvents : List Block → List Event
  | [] => []
  | b :: bs => blockEvents b ++ blocksEvents bs

/-- A whole canonical document: its blocks followed by `</html>`. -/
def docEvents (bs : List Block) : List Event :=
  blocksEvents bs ++ [Event.endtag "html"]

/-- The parser state reached after consuming one canonical block: all its
fields captured, at step 8, carrying the expected date and the seen pids. -/
def loadBlock (b : Block) (expected : String) (had : List String) : ParserState :=
  { date := cleanDate b.date, time := b.time, pid := b.pid, title := b.title,
    subtitle := "", «repeat» := "", step := 8, expected := expected,
    hadPid := had }

/-- The output line a canonical block produces when emitted. -/
def recordOfBlock (b : Block) : String :=
  cleanDate b.date ++ "-" ++ b.time ++ " " ++ b.pid ++ " " ++ "\"" ++ b.title ++ "\""

/-- Reference emitter: the lines a canonical document's blocks produce,
threading the seen-pid set exactly as the flush rule does. -/
def runBlocks (expected : String) : List Block → List String → List String
  | [], _ => []
  | b :: bs, had =>
    if cleanDate b.date = expected ∧ b.pid ∉ had then
      recordOfBlock b :: runBlocks expected bs (had ++ [b.pid])
    else runBlocks expected bs had

/-- Reference emitter: the seen-pid set after a canonical document. -/
def runHad (expected : String) : List Block → List String → List String
  | [], had => had
  | b :: bs, had =>
    if cleanDate b.date = expected ∧ b.pid ∉ had then
      runHad expected bs (had ++ [b.pid])
    else runHad expected bs had

/-- The last block of a nonempty canonical document. -/
def lastBlock (b : Block) (bs : List Block) : Block :=
  bs.getLastD b

/-- The event stream of a malformed block that reaches the identifier
step (step 5: `h3` boundary, date attribute, time container, time text,
pid attribute) but never reaches title text. -/
def brokenBlockEvents (d t p : String) : List Event :=
  [ .starttag "h3" [],
    .starttag "meta" [("content", d)],
    .starttag "span" [("class", "timezone--time")],
    .data t,
    .starttag "div" [("data-pid", p)] ]

/-- The parser state after consuming a malformed block: date, time and
pid captured, empty title, stuck at step 5. -/
def brokenLoaded (d t p : String) (expected : String)
    (had : List String) : ParserState :=
  { date := cleanDate d, time := t, pid := p, title := "", subtitle := "",
    «repeat» := "", step := 5, expected := expected, hadPid := had }

lemma feed_append (s : ParserState) (xs ys : List Event) :
    feed s (xs ++ ys) =
      ((feed (feed s xs).1 ys).1, (feed s xs).2 ++ (feed (feed s xs).1 ys).2) := by
  induction xs generalizing s with
  | nil => simp [feed]
  | cons e xs ih =>
    simp only [List.cons_append, feed, List.append_eq]
    rw [ih]
    simp [List.append_assoc]

lemma printProgramme_fst_step (s : ParserState) :
    (printProgramme s).1.step = s.step := by
  unfold printProgramme
  split <;> rfl

lemma printProgramme_fst_expected (s : ParserState) :
    (printProgramme s).1.expected = s.expected := by
  unfold printProgramme
  split <;> rfl

/-- Consuming one canonical block from a mid-document state (step ≠ 0)
flushes the previous programme and loads the block. -/
lemma feed_block_ne (s : ParserState) (b : Block) (h : s.step ≠ 0) :
    feed s (blockEvents b) =
      (loadBlock b s.expected (printProgramme s).1.hadPid, (printProgramme s).2) := by
  simp [feed, blockEvents, procEvent, handle_starttag, handle_data, attrStep,
    loadBlock, h, printProgramme_fst_expected]

/-- Consuming one canonical block from an idle state (step = 0) emits
nothing and loads the block. -/
lemma feed_block_eq (s : ParserState) (b : Block) (h : s.step = 0) :
    feed s (blockEvents b) = (loadBlock b s.expected s.hadPid, []) := by
  simp [feed, blockEvents, procEvent, handle_starttag, handle_data, attrStep,
    loadBlock, h]

/-- `</html>` flushes the current programme and returns to step 0. -/
lemma feed_html (s : ParserState) :
    feed s [Event.endtag "html"] =
      ({ (printProgramme s).1 with step := 0 }, (printProgramme s).2) := by
  simp [feed, procEvent, handle_endtag]

/-- The output line of a flushed canonical block. -/
lemma recordLine_loadBlock (b : Block) (E : String) (had : List String) :
    recordLine (loadBlock b E had) = recordOfBlock b := by
  simp only [recordLine, loadBlock, recordOfBlock, fmtTitle, String.append_assoc]
  rfl

/-- Rewriting the seen-pid set of a loaded block. -/
lemma loadBlock_setHad (b : Block) (E : String) (had newHad : List String) :
    ({ loadBlock b E had with hadPid := newHad } : ParserState) =
      loadBlock b E newHad := rfl

lemma loadBlock_expected (b : Block) (E : String) (had : List String) :
    (loadBlock b E had).expected = E := rfl

lemma loadBlock_hadPid (b : Block) (E : String) (had : List String) :
    (loadBlock b E had).hadPid = had := rfl

/-- The flush of a loaded canonical block follows the reference emitter. -/
lemma printProgramme_loadBlock (b : Block) (E : String) (had : List String) :
    printProgramme (loadBlock b E had) =
      if cleanDate b.date = E ∧ b.pid ∉ had then
        (loadBlock b E (had ++ [b.pid]), [recordOfBlock b])
      else (loadBlock b E had, []) := by
  unfold printProgramme
  split
  · rename_i hc
    simp only [loadBlock] at hc
    rw [if_pos hc, recordLine_loadBlock, ← loadBlock_setHad b E had]
    rfl
  · rename_i hc
    simp only [loadBlock] at hc
    rw [if_neg hc]

lemma lastBlock_cons (b b' : Block) (bs : List Block) :
    lastBlock b (b' :: bs) = lastBlock b' bs := by
  rw [lastBlock, lastBlock, List.getLastD_cons]

/-- Feeding the rest of a document from a loaded block: each later block
boundary flushes its predecessor, and the final `</html>` flushes the last
block; the output is exactly the reference emitter's. -/
lemma feed_loaded (E : String) (bs : List Block) (b : Block) (had : List String) :
    feed (loadBlock b E had) (blocksEvents bs ++ [Event.endtag "html"]) =
      ({ loadBlock (lastBlock b bs) E (runHad E (b :: bs) had) with step := 0 },
       runBlocks E (b :: bs) had) := by
  induction bs generalizing b had with
  | nil =>
    rw [blocksEvents, List.nil_append, feed_html, printProgramme_loadBlock]
    by_cases hc : cleanDate b.date = E ∧ b.pid ∉ had
    · rw [if_pos hc]
      simp [lastBlock, runHad, runBlocks, if_pos hc, loadBlock]
    · rw [if_neg hc]
      simp [lastBlock, runHad, runBlocks, if_neg hc, loadBlock]
  | cons b' bs ih =>
    have hne : (loadBlock b E had).step ≠ 0 := by simp [loadBlock]
    rw [blocksEvents, List.append_assoc, feed_append, feed_block_ne _ _ hne,
      printProgramme_loadBlock]
    by_cases hc : cleanDate b.date = E ∧ b.pid ∉ had
    · rw [if_pos hc]
      simp only [loadBlock_expected, loadBlock_hadPid, ih, lastBlock_cons]
      simp [runBlocks, runHad, if_pos hc, loadBlock, List.append_assoc]
    · rw [if_neg hc]
      simp only [loadBlock_expected, loadBlock_hadPid, ih, lastBlock_cons]
      simp [runBlocks, runHad, if_neg hc, loadBlock, List.append_assoc]

/-- Feeding a whole nonempty canonical document from any idle state:
the output is the reference emitter's, and the machine returns to idle
with the reference seen-pid set. -/
lemma feed_doc (s : ParserState) (E : String) (b : Block) (bs : List Block)
    (hstep : s.step = 0) (hexp : s.expected = E) :
    feed s (docEvents (b :: bs)) =
      ({ loadBlock (lastBlock b bs) E (runHad E (b :: bs) s.hadPid) with
          step := 0 },
       runBlocks E (b :: bs) s.hadPid) := by
  rw [docEvents, blocksEvents, List.append_assoc, feed_append,
    feed_block_eq _ _ hstep, hexp]
  simp only [feed_loaded]
  simp

/-- With pairwise-distinct pids, none already seen, the reference emitter
emits exactly the blocks whose cleaned date matches. -/
lemma runBlocks_length (E : String) (bs : List Block) (had : List String)
    (hnd : (bs.map Block.pid).Nodup) (hfresh : ∀ x ∈ bs, x.pid ∉ had) :
    (runBlocks E bs had).length =
      (bs.filter (fun x => cleanDate x.date = E)).length := by
  induction bs generalizing had with
  | nil => simp [runBlocks]
  | cons b bs ih =>
    simp only [List.map_cons, List.nodup_cons] at hnd
    have hb : b.pid ∉ had := hfresh b (by simp)
    have htail : ∀ x ∈ bs, x.pid ∉ had := fun x hx => hfresh x (by simp [hx])
    by_cases hd : cleanDate b.date = E
    · rw [runBlocks, if_pos ⟨hd, hb⟩]
      have hfresh2 : ∀ x ∈ bs, x.pid ∉ had ++ [b.pid] := by
        intro x hx
        simp only [List.mem_append, List.mem_singleton]
        rintro (h | h)
        · exact htail x hx h
        · exact hnd.1 (h ▸ List.mem_map_of_mem Block.pid hx)
      simp [List.filter_cons, hd, ih _ hnd.2 hfresh2]
    · rw [runBlocks, if_neg (by simp [hd])]
      simp [List.filter_cons, hd, ih _ hnd.2 htail]

/-- The reference emitter's output is a subsequence of the blocks' record
lines, in document order. -/
lemma runBlocks_sublist (E : String) (bs : List Block) (had : List String) :
    (runBlocks E bs had).Sublist (bs.map recordOfBlock) := by
  induction bs generalizing had with
  | nil => simp [runBlocks]
  | cons b bs ih =>
    rw [runBlocks]
    split
    · exact (ih _).cons₂ _
    · exact (ih _).cons _

/-- The seen-pid set only grows. -/
lemma runHad_mono (E : String) (bs : List Block) (had : List String)
    (a : String) (ha : a ∈ had) : a ∈ runHad E bs had := by
  induction bs generalizing had with
  | nil => simpa [runHad] using ha
  | cons b bs ih =>
    rw [runHad]
    split
    · exact ih _ (by simp [ha])
    · exact ih _ ha

/-- After a document, the pid of every block with a matching date is in
the seen-pid set. -/
lemma mem_runHad (E : String) (bs : List Block) (had : List String)
    (x : Block) (hx : x ∈ bs) (hd : cleanDate x.date = E) :
    x.pid ∈ runHad E bs had := by
  induction bs generalizing had with
  | nil => cases hx
  | cons b bs ih =>
    rw [runHad]
    rcases List.mem_cons.1 hx with h | h
    · subst h
      split
      · exact runHad_mono _ _ _ _ (by simp)
      · rename_i hc
        rw [Classical.not_and_iff_or_not_not, not_not] at hc
        rcases hc with hc | hc
        · exact absurd hd hc
        · exact runHad_mono _ _ _ _ hc
    · split
      · exact ih _ h
      · exact ih _ h

/-- If every matching block's pid is already seen, nothing is emitted. -/
lemma runBlocks_nil_of_seen (E : String) (bs : List Block) (had : List String)
    (h : ∀ x ∈ bs, cleanDate x.date = E → x.pid ∈ had) :
    runBlocks E bs had = [] := by
  induction bs generalizing had with
  | nil => rfl
  | cons b bs ih =>
    rw [runBlocks, if_neg]
    · exact ih _ fun x hx hd => h x (by simp [hx]) hd
    · rintro ⟨hd, hp⟩
      exact hp (h b (by simp) hd)

/-- Consuming a malformed block from an idle state captures date, time
and pid, emits nothing, and sticks at step 5. -/
lemma feed_broken (s : ParserState) (d t p : String) (h : s.step = 0) :
    feed s (brokenBlockEvents d t p) =
      (brokenLoaded d t p s.expected s.hadPid, []) := by
  simp [feed, brokenBlockEvents, procEvent, handle_starttag, handle_data,
    attrStep, brokenLoaded, h]

lemma brokenLoaded_step (d t p E : String) (had : List String) :
    (brokenLoaded d t p E had).step = 5 := rfl

/-- A malformed block whose captured date does not match the expected
date is dropped by the flush. -/
lemma printProgramme_brokenLoaded (d t p E : String) (had : List String)
    (hd : cleanDate d ≠ E) :
    printProgramme (brokenLoaded d t p E had) =
      (brokenLoaded d t p E had, []) := by
  rw [printProgramme, if_neg]
  rintro ⟨h1, -⟩
  exact hd h1

/-- A string concatenation is empty iff both halves are. -/
lemma string_append_eq_empty (a b : String) :
    a ++ b = "" ↔ a = "" ∧ b = "" := by
  cases a with
  | mk la =>
    cases b with
    | mk lb =>
      show String.mk la ++ String.mk lb = String.mk [] ↔ _
      constructor
      · intro h
        have : la ++ lb = [] := congrArg String.data h
        rcases List.append_eq_nil.1 this with ⟨h1, h2⟩
        exact ⟨by rw [h1], by rw [h2]⟩
      · rintro ⟨h1, h2⟩
        have e1 : la = [] := congrArg String.data h1
        have e2 : lb = [] := congrArg String.data h2
        subst e1; subst e2; rfl

/-- At step 0, the attribute loop changes nothing. -/
lemma attrStep_step0 (s : ParserState) (av : String × String)
    (h : s.step = 0) : attrStep s av = s := by
  simp [attrStep, h]

lemma foldl_attrStep_step0 (s : ParserState) (l : List (String × String))
    (h : s.step = 0) : l.foldl attrStep s = s := by
  induction l with
  | nil => rfl
  | cons a l ih =>
    rw [List.foldl_cons, attrStep_step0 s a h, ih]

/-- A second flush immediately after a flush (with only the step reset to
0 in between) emits nothing. -/
lemma printProgramme_again (s : ParserState) :
    (printProgramme ({ (printProgramme s).1 with step := 0 })).2 = [] := by
  by_cases hc : s.date = s.expected ∧ s.pid ∉ s.hadPid
  · have h1 : printProgramme s =
        ({ s with hadPid := s.hadPid ++ [s.pid] }, [recordLine s]) := by
      rw [printProgramme, if_pos hc]
    rw [h1, printProgramme, if_neg]
    rintro ⟨-, h2⟩
    exact h2 (by simp)
  · have h1 : printProgramme s = (s, []) := by
      rw [printProgramme, if_neg hc]
    rw [h1, printProgramme, if_neg]
    intro h
    exact hc ⟨h.1, h.2⟩

lemma procEvent_html_out (s : ParserState) :
    (procEvent s (Event.endtag "html")).2 = (printProgramme s).2 := by
  simp [procEvent, handle_endtag]

lemma procEvent_html_fst (s : ParserState) :
    (procEvent s (Event.endtag "html")).1
      = { (printProgramme s).1 with step := 0 } := by
  simp [procEvent, handle_endtag]

lemma procEvent_h3_out (s : ParserState) (attrs : List (String × String))
    (h : s.step ≠ 0) :
    (procEvent s (Event.starttag "h3" attrs)).2 = (printProgramme s).2 := by
  simp [procEvent, handle_starttag, h]

/-- C8: within a single document, emitted records appear in the same
relative order as their defining block-boundary open tags — the output of
a canonical document is a subsequence of its blocks' record lines taken in
document order. -/
theorem order_preservation (E : String) (b : Block) (bs : List Block) :
    ((feed (newDate initState E) (docEvents (b :: bs))).2).Sublist
      ((b :: bs).map recordOfBlock) := by
  rw [feed_doc _ E b bs rfl rfl]
  exact runBlocks_sublist E (b :: bs) _

/-- C10: the flush is idempotent — two document-root close events with no
field mutation in between emit no more than the first one alone, and at
most one record in total. -/
theorem flush_idempotent (s : ParserState) :
    (feed s [Event.endtag "html", Event.endtag "html"]).2
        = (feed s [Event.endtag "html"]).2
    ∧ ((feed s [Event.endtag "html", Event.endtag "html"]).2).length ≤ 1 := by
  constructor
  · simp [feed, procEvent, handle_endtag, printProgramme_again]
  · simp only [feed, procEvent, handle_endtag]
    simp [printProgramme_again]
    unfold printProgramme
    split <;> simp

/-- C7 (amended): the begin-document operation sets `expectedDate`, resets
the position to idle, and — for a subsequent document that begins with a
block boundary — the stale fields of a never-flushed block from a prior
document cannot influence the output, which depends only on the seen-pid
set.  (The stale fields are, however, not cleared: see the
counterexample, where a document-root close arriving before any block
boundary re-flushes them.) -/
theorem newDate_resets (s : ParserState) (E : String) (b : Block)
    (bs : List Block) :
    (newDate s E).expected = E ∧ (newDate s E).step = 0
    ∧ (feed (newDate s E) (docEvents (b :: bs))).2
        = runBlocks E (b :: bs) s.hadPid := by
  refine ⟨rfl, rfl, ?_⟩
  rw [feed_doc _ E b bs rfl rfl]
  rfl

/-- C7 counterexample: a never-flushed in-progress block from a prior
(malformed, never-closed) document IS emitted during a subsequent
document when that document's root close tag arrives before any block
boundary and the stale date matches the new expected date. -/
theorem newDate_discard_counterexample :
    (feed (newDate (feed (newDate initState "2024/01/02")
          (blockEvents ⟨"2024-01-02", "09:00", "p9", "Old"⟩)).1 "2024/01/02")
        [Event.endtag "html"]).2
      = ["2024/01/02-09:00 p9 \"Old\""] := by
  rfl

/-- C1: a flushed block (at a block-boundary `h3` open tag with the
machine not idle, or at the document-root close tag) is emitted iff its
date equals the expected date and its pid is not yet seen; on emission
the pid is added to the seen set; consequently a canonical document of
distinct-pid blocks emits exactly as many records as it has blocks whose
(cleaned) date equals the expected date. -/
theorem html_flush_rule_and_date_filter (s : ParserState) (E : String)
    (b : Block) (bs : List Block)
    (hnd : ((b :: bs).map Block.pid).Nodup) :
    ((procEvent s (Event.endtag "html")).2
        = if s.date = s.expected ∧ s.pid ∉ s.hadPid then [recordLine s] else [])
    ∧ (∀ attrs, s.step ≠ 0 →
        (procEvent s (Event.starttag "h3" attrs)).2
          = if s.date = s.expected ∧ s.pid ∉ s.hadPid then [recordLine s] else [])
    ∧ (s.date = s.expected ∧ s.pid ∉ s.hadPid →
        (procEvent s (Event.endtag "html")).1.hadPid = s.hadPid ++ [s.pid])
    ∧ ((feed (newDate initState E) (docEvents (b :: bs))).2).length
        = ((b :: bs).filter (fun x => cleanDate x.date = E)).length := by
  refine ⟨?_, ?_, ?_, ?_⟩
  · rw [procEvent_html_out, printProgramme]
    split <;> rfl
  · intro attrs h
    rw [procEvent_h3_out s attrs h, printProgramme]
    split <;> rfl
  · intro h
    rw [procEvent_html_fst, printProgramme, if_pos h]
  · rw [feed_doc _ E b bs rfl rfl]
    exact runBlocks_length E (b :: bs) [] hnd (by simp)

/-- Witness for C1: a two-block document with one matching date emits
exactly one record. -/
theorem html_flush_rule_and_date_filter_witness :
    ((feed (newDate initState "2024/01/02")
        (docEvents [⟨"2024-01-02", "18:00", "abc123", "News"⟩,
                    ⟨"2024-01-03", "19:00", "zzz999", "Late"⟩])).2).length = 1 :=
  (html_flush_rule_and_date_filter initState "2024/01/02"
      ⟨"2024-01-02", "18:00", "abc123", "News"⟩
      [⟨"2024-01-03", "19:00", "zzz999", "Late"⟩] (by decide)).2.2.2.trans
    (by decide)

/-- C5: feeding the same canonical document twice (same expected date,
each feed preceded by the begin-document operation) to one extractor
instance yields the document's records in full from the first feed and
zero records from the second. -/
theorem dedup_idempotent (E : String) (b : Block) (bs : List Block)
    (hnd : ((b :: bs).map Block.pid).Nodup) :
    (feed (newDate initState E) (docEvents (b :: bs))).2
        = runBlocks E (b :: bs) []
    ∧ ((feed (newDate initState E) (docEvents (b :: bs))).2).length
        = ((b :: bs).filter (fun x => cleanDate x.date = E)).length
    ∧ (feed (newDate (feed (newDate initState E) (docEvents (b :: bs))).1 E)
        (docEvents (b :: bs))).2 = [] := by
  have h1 := feed_doc (newDate initState E) E b bs rfl rfl
  refine ⟨?_, ?_, ?_⟩
  · rw [h1]
    rfl
  · rw [h1]
    exact runBlocks_length E (b :: bs) [] hnd (by simp)
  · rw [h1]
    rw [feed_doc _ E b bs rfl rfl]
    apply runBlocks_nil_of_seen
    intro x hx hd
    exact mem_runHad E (b :: bs) _ x hx hd

/-- Witness for C5: the second feed of a one-block document emits
nothing. -/
theorem dedup_idempotent_witness :
    (feed (newDate (feed (newDate initState "2024/01/02")
          (docEvents [⟨"2024-01-02", "18:00", "abc123", "News"⟩])).1
        "2024/01/02")
      (docEvents [⟨"2024-01-02", "18:00", "abc123", "News"⟩])).2 = [] :=
  (dedup_idempotent "2024/01/02" ⟨"2024-01-02", "18:00", "abc123", "News"⟩
    [] (by decide)).2.2

/-- C4 (amended): at the idle position (step 0) every event leaves the
state unchanged and produces no output — except the block-boundary `h3`
open tag, the subtitle-terminating `h4` close tag (which moves the
position to 11 even from idle), and the document-root `html` close tag
(which re-runs the flush).  For all other open tags, all text, and all
other close tags, the idle state is a fixed point. -/
theorem idle_frame (s : ParserState) (h0 : s.step = 0) :
    (∀ tag attrs, tag ≠ "h3" → procEvent s (Event.starttag tag attrs) = (s, []))
    ∧ (∀ d, procEvent s (Event.data d) = (s, []))
    ∧ (∀ tag, tag ≠ "h4" → tag ≠ "html" → procEvent s (Event.endtag tag) = (s, []))
    ∧ procEvent s (Event.endtag "h4") = ({ s with step := 11 }, []) := by
  refine ⟨?_, ?_, ?_, ?_⟩
  · intro tag attrs htag
    simp only [procEvent, handle_starttag, if_neg htag]
    rw [foldl_attrStep_step0 s attrs h0]
  · intro d
    simp [procEvent, handle_data, h0]
  · intro tag h4 hhtml
    simp [procEvent, handle_endtag, h4, hhtml]
  · simp [procEvent, handle_endtag]

/-- Witness for C4 (amended): the `h4` close tag at an idle state moves
the step to 11. -/
theorem idle_frame_witness :
    procEvent (newDate initState "2024/01/02") (Event.endtag "h4")
      = ({ newDate initState "2024/01/02" with step := 11 }, []) :=
  (idle_frame (newDate initState "2024/01/02") rfl).2.2.2

/-- C4 counterexample: the claim as stated is false — a close-tag event
(`</h4>`) received at the idle position does change the state (it sets
the step to 11). -/
theorem idle_frame_counterexample :
    (procEvent (newDate initState "2024/01/02") (Event.endtag "h4")).1
      ≠ newDate initState "2024/01/02" := by
  decide

/-- C9: a `</h4>` close moves the machine to the repeat-check position 11
from every position, and from position 11 any open tag (other than a
block boundary) carrying an attribute value `Repeat` sets the repeat
marker; hence a block with no subtitle still gets its repeat marker
recognized. -/
theorem h4_terminates_subtitle_everywhere (s s' : ParserState)
    (a tag : String) (h1 : s'.step = 11) (h2 : tag ≠ "h3") :
    handle_endtag s "h4" = ({ s with step := 11 }, [])
    ∧ handle_starttag s' tag [(a, "Repeat")]
        = ({ s' with «repeat» := "(R)", step := 12 }, []) := by
  constructor
  · simp [handle_endtag]
  · simp [handle_starttag, if_neg h2, attrStep, h1]

/-- Witness for C9: from a state at position 11 with no subtitle, a
`span` open tag with value `Repeat` sets the repeat marker. -/
theorem h4_terminates_subtitle_everywhere_witness :
    handle_starttag { initState with step := 11 } "span" [("class", "Repeat")]
      = ({ initState with «repeat» := "(R)", step := 12 }, []) :=
  (h4_terminates_subtitle_everywhere initState { initState with step := 11 }
    "class" "span" rfl (by decide)).2

/-- C6: every text event at the subtitle-text position (step 10) strips
the fragment, appends a trailing space when the stripped fragment ends in
a comma, concatenates it onto the subtitle with no other separator, and
stays at step 10; `"Part One,"` then `"Episode 2"` join to
`"Part One, Episode 2"`, and `"Foo"` then `"Bar"` join to `"FooBar"`. -/
theorem subtitle_fragment_join (s : ParserState) (h : s.step = 10)
    (d : String) :
    handle_data s d = { s with subtitle := s.subtitle ++ subtitleFrag d }
    ∧ (handle_data s d).step = 10
    ∧ (handle_data (handle_data s "Part One,") "Episode 2").subtitle
        = s.subtitle ++ "Part One, Episode 2"
    ∧ (handle_data (handle_data s "Foo") "Bar").subtitle
        = s.subtitle ++ "FooBar" := by
  refine ⟨by simp [handle_data, h], by simp [handle_data, h], ?_, ?_⟩
  · have e1 : subtitleFrag "Part One," = "Part One, " := by decide
    have e2 : subtitleFrag "Episode 2" = "Episode 2" := by decide
    simp only [handle_data, h]
    norm_num
    rw [e1, e2, String.append_assoc]
    rfl
  · have e1 : subtitleFrag "Foo" = "Foo" := by decide
    have e2 : subtitleFrag "Bar" = "Bar" := by decide
    simp only [handle_data, h]
    norm_num
    rw [e1, e2, String.append_assoc]
    rfl

/-- Witness for C6: the comma-aware join at step 10 on a concrete
state. -/
theorem subtitle_fragment_join_witness :
    (handle_data (handle_data { initState with step := 10 } "Part One,")
        "Episode 2").subtitle
      = ({ initState with step := 10 } : ParserState).subtitle
          ++ "Part One, Episode 2" :=
  (subtitle_fragment_join { initState with step := 10 } rfl "x").2.2.1

/-- The four-way branch of `printProgramme`, rephrased on whether the
subtitle is empty and whether the repeat marker (always `""` or `"(R)"`
in the machine) is present. -/
lemma fmtTitle_cases (t sub rpt : String) (hr : rpt = "" ∨ rpt = "(R)") :
    fmtTitle t sub rpt =
      if sub = "" ∧ rpt = "" then "\"" ++ t ++ "\""
      else if sub ≠ "" ∧ rpt = "" then "\"" ++ t ++ " - " ++ sub ++ "\""
      else if sub = "" then "\"" ++ t ++ "\"" ++ " (R)"
      else "\"" ++ t ++ " - " ++ sub ++ "\"" ++ " (R)" := by
  rcases hr with h | h <;> subst h <;> by_cases hs : sub = ""
  · subst hs
    simp [fmtTitle]
  · simp [fmtTitle, string_append_eq_empty, hs]
  · subst hs
    simp [fmtTitle, String.append_assoc]
  · simp [fmtTitle, string_append_eq_empty, hs, String.append_assoc]

/-- C2: every emitted record is one output line `{date}-{time} {id} `
followed by the formatted title string: `"{title}"`,
`"{title} - {subtitle}"`, `"{title}" (R)` or `"{title} - {subtitle}" (R)`
according to whether the subtitle is empty and the repeat marker is
present. -/
theorem record_format (s : ParserState)
    (hr : s.«repeat» = "" ∨ s.«repeat» = "(R)")
    (he : s.date = s.expected ∧ s.pid ∉ s.hadPid) :
    (procEvent s (Event.endtag "html")).2 =
      [s.date ++ "-" ++ s.time ++ " " ++ s.pid ++ " " ++
        (if s.subtitle = "" ∧ s.«repeat» = "" then "\"" ++ s.title ++ "\""
         else if s.subtitle ≠ "" ∧ s.«repeat» = "" then
           "\"" ++ s.title ++ " - " ++ s.subtitle ++ "\""
         else if s.subtitle = "" then "\"" ++ s.title ++ "\"" ++ " (R)"
         else "\"" ++ s.title ++ " - " ++ s.subtitle ++ "\"" ++ " (R)")] := by
  rw [procEvent_html_out, printProgramme, if_pos he, recordLine,
    fmtTitle_cases s.title s.subtitle s.«repeat» hr]

/-- Witness for C2: the spec's formatting example — subtitle `"Evening"`
and a repeat marker. -/
theorem record_format_witness :
    (procEvent
        { date := "2024/01/02", time := "18:00", pid := "abc123",
          title := "News", subtitle := "Evening", «repeat» := "(R)",
          step := 12, expected := "2024/01/02", hadPid := [] }
        (Event.endtag "html")).2
      = ["2024/01/02-18:00 abc123 \"News - Evening\" (R)"] :=
  (record_format
      { date := "2024/01/02", time := "18:00", pid := "abc123",
        title := "News", subtitle := "Evening", «repeat» := "(R)",
        step := 12, expected := "2024/01/02", hadPid := [] }
      (Or.inr rfl) ⟨rfl, by decide⟩).trans (by decide)

/-- C3 (amended): a block that reaches the identifier step but never
reaches title text produces no output — provided its captured date does
not match the expected date (or, not shown here, its pid was already
seen) — and extraction of the following block is unaffected.  (When the
broken block's captured date does match and its pid is fresh, the flush
emits it as a partial record with an empty title: see the
counterexample.) -/
theorem incomplete_block_discarded (s : ParserState) (d t p : String)
    (b : Block) (h0 : s.step = 0) (hd : cleanDate d ≠ s.expected) :
    (feed s (brokenBlockEvents d t p ++ docEvents [b])).2
      = runBlocks s.expected [b] s.hadPid := by
  have h1 := feed_loaded s.expected [] b s.hadPid
  rw [blocksEvents, List.nil_append] at h1
  rw [feed_append, feed_broken s d t p h0]
  dsimp only
  rw [(by simp [docEvents, blocksEvents] :
      docEvents [b] = blockEvents b ++ [Event.endtag "html"])]
  rw [feed_append, feed_block_ne _ _ (by simp [brokenLoaded]),
    printProgramme_brokenLoaded d t p s.expected s.hadPid hd]
  dsimp only [brokenLoaded]
  rw [h1]
  simp

/-- Witness for C3 (amended): a broken block dated a day late is dropped;
the following block is extracted normally. -/
theorem incomplete_block_discarded_witness :
    (feed (newDate initState "2024/01/02")
        (brokenBlockEvents "2024-01-03" "09:00" "p1"
          ++ docEvents [⟨"2024-01-02", "10:00", "p2", "B"⟩])).2
      = ["2024/01/02-10:00 p2 \"B\""] :=
  (incomplete_block_discarded (newDate initState "2024/01/02")
      "2024-01-03" "09:00" "p1" ⟨"2024-01-02", "10:00", "p2", "B"⟩
      rfl (by decide)).trans (by decide)

/-- C3 counterexample: the claim as stated is false — a block that
reaches the identifier step with a matching date and a fresh pid, but
never reaches title text, IS flushed at the next block boundary as a
partial record with an empty title. -/
theorem incomplete_block_counterexample :
    (feed (newDate initState "2024/01/02")
        (brokenBlockEvents "2024-01-02" "09:00" "p1"
          ++ [Event.starttag "h3" []])).2
      = ["2024/01/02-09:00 p1 \"\""] := by
  rfl
